import Mathlib

/-!
# Verification of the audio-recorder live transcription pipeline

Shallow embedding of `src/main.rs` of the `audio-recorder` repository.

Modelling conventions:
* `f32`/`f64` sample values and their arithmetic are modelled by `ℚ`
  (exact arithmetic in place of IEEE rounding).
* `u64`/`i64` quantities are modelled by `ℕ`/`ℤ`; where the source can
  overflow, the wrap-around is made explicit (`% 2 ^ 64`, two's complement
  reinterpretation).  Rust's `i64` division `/` truncates towards zero and
  `%` takes the sign of the dividend, which is `Int.tdiv` / `Int.tmod`.
* Fallible external calls (the whisper engine) are oracles passed in as
  functions returning `Option`.
-/

namespace AudioRecorder

/-- One segment returned by the recognition engine for a chunk:
start/end timestamps in hundredths of a second (`i64` in the source,
from `full_get_segment_t0/t1`) and the segment text. -/
structure Segment where
  t0 : ℤ
  t1 : ℤ
  text : String
deriving DecidableEq

/-- Rust's `str::trim` (used as `segment.trim()` in `main.rs`): remove
whitespace from both ends.  Implemented over the character list so that it
evaluates by kernel reduction. -/
def strTrim (s : String) : String :=
  ⟨((s.data.dropWhile Char.isWhitespace).reverse.dropWhile Char.isWhitespace).reverse⟩

/-- Rust's `format!("{:02}", z)` for an `i64` value: pad with a leading `0`
up to width 2.  A negative value of one digit already has width 2 (`-5`),
so only values in `[0, 10)` get padded. -/
def pad2 (z : ℤ) : String :=
  if 0 ≤ z ∧ z < 10 then "0" ++ toString z else toString z

/-- Reinterpretation of a `u64` value (a natural number, reduced mod `2^64`)
as an `i64`, as performed by Rust's `as i64` cast. -/
def u64ToI64 (n : ℕ) : ℤ :=
  if n % 2 ^ 64 < 2 ^ 63 then ((n % 2 ^ 64 : ℕ) : ℤ)
  else ((n % 2 ^ 64 : ℕ) : ℤ) - 2 ^ 64

/-- Two's-complement wrap of an integer into the `i64` range, modelling the
wrap-around of `i64` addition in release builds. -/
def wrapI64 (z : ℤ) : ℤ :=
  (z + 2 ^ 63) % 2 ^ 64 - 2 ^ 63

/-- The transcript line produced by the periodic chunk scheduler for one
segment (`main.rs` lines 472‑490): chunk-relative centisecond timestamps are
turned into global `MM:SS` times using the current chunk index
`segment_counter` and `chunk_seconds`, via
`total_start_sec = (segment_counter * chunk_seconds) as i64 + start_sec_total`.
The `u64` multiplication and the `as i64` cast are modelled exactly. -/
def mergeLine (segment_counter chunk_seconds : ℕ) (seg : Segment) : String :=
  let start_sec_total : ℤ := Int.tdiv seg.t0 100
  let end_sec_total : ℤ := Int.tdiv seg.t1 100
  let total_start_sec : ℤ := wrapI64 (u64ToI64 (segment_counter * chunk_seconds) + start_sec_total)
  let total_end_sec : ℤ := wrapI64 (u64ToI64 (segment_counter * chunk_seconds) + end_sec_total)
  let final_start_min : ℤ := Int.tdiv total_start_sec 60
  let final_start_sec : ℤ := Int.tmod total_start_sec 60
  let final_end_min : ℤ := Int.tdiv total_end_sec 60
  let final_end_sec : ℤ := Int.tmod total_end_sec 60
  "[" ++ pad2 final_start_min ++ ":" ++ pad2 final_start_sec ++ " - " ++
    pad2 final_end_min ++ ":" ++ pad2 final_end_sec ++ "] " ++ strTrim seg.text ++ "\n"

/-- The transcript line produced by the final drain step for one segment
(`main.rs` lines 551‑565): the engine-relative centisecond timestamps are
formatted directly as `MM:SS`, with no chunk-index offset. -/
def drainLine (seg : Segment) : String :=
  let start_sec : ℤ := Int.tdiv seg.t0 100
  let end_sec : ℤ := Int.tdiv seg.t1 100
  let start_min : ℤ := Int.tdiv start_sec 60
  let start_sec' : ℤ := Int.tmod start_sec 60
  let end_min : ℤ := Int.tdiv end_sec 60
  let end_sec' : ℤ := Int.tmod end_sec 60
  "[" ++ pad2 start_min ++ ":" ++ pad2 start_sec' ++ " - " ++
    pad2 end_min ++ ":" ++ pad2 end_sec' ++ "] " ++ strTrim seg.text ++ "\n"

/-- The Timestamp Merger's global start/end time in seconds, written as the
spec states it: `global = k × chunk_seconds + segment_time/100`. -/
def specGlobalTime (k chunk_seconds : ℕ) (t : ℤ) : ℤ :=
  (k : ℤ) * (chunk_seconds : ℤ) + Int.tdiv t 100

/-- `MM:SS` formatting of a global time in seconds, as the spec states it. -/
def specMMSS (t : ℤ) : String :=
  pad2 (Int.tdiv t 60) ++ ":" ++ pad2 (Int.tmod t 60)

/-- `resample` from `main.rs` lines 197‑221.  `f64` arithmetic is modelled
exactly over `ℚ`; the `as usize` casts (truncation of a non-negative value)
are `Int.floor` followed by `Int.toNat`.  An output index pushes a linearly
interpolated value when `src_idx + 1` is in bounds, the last sample when only
`src_idx` is in bounds, and nothing otherwise. -/
def resample (samples : List ℚ) (from_rate to_rate : ℕ) : List ℚ :=
  if from_rate = to_rate then samples
  else
    let rq : ℚ := (to_rate : ℚ) / (from_rate : ℚ)
    let new_len : ℕ := (⌊(samples.length : ℚ) * rq⌋).toNat
    (List.range new_len).filterMap (fun (i : ℕ) =>
      let src_pos : ℚ := (i : ℚ) / rq
      let src_idx : ℕ := (⌊src_pos⌋).toNat
      let frac : ℚ := src_pos - (src_idx : ℚ)
      if src_idx + 1 < samples.length then
        some (samples.getD src_idx 0 * (1 - frac) + samples.getD (src_idx + 1) 0 * frac)
      else if src_idx < samples.length then
        some (samples.getD src_idx 0)
      else none)

/-- The reference interpolation the spec describes for output index `i`:
`src_pos = i / ratio`, `src_idx = floor(src_pos)`, linear interpolation
between `samples[src_idx]` and `samples[src_idx+1]` when the successor is in
bounds, otherwise the sample at `src_idx` (the tail). -/
def specResampleAt (samples : List ℚ) (from_rate to_rate : ℕ) (i : ℕ) : ℚ :=
  let src_pos : ℚ := (i : ℚ) / ((to_rate : ℚ) / (from_rate : ℚ))
  let src_idx : ℕ := (⌊src_pos⌋).toNat
  let frac : ℚ := src_pos - (src_idx : ℚ)
  if src_idx + 1 < samples.length then
    samples.getD src_idx 0 * (1 - frac) + samples.getD (src_idx + 1) 0 * frac
  else samples.getD src_idx 0

/-- Rust's `slice::chunks(n)`: split a list into consecutive chunks of `n`
elements, the last chunk possibly shorter.  (`chunks(0)` panics in Rust; all
call sites here have `n = channels ≥ 1`.  The `n = 0` case is modelled as no
chunks.) -/
def chunksList {α : Type} (n : ℕ) (l : List α) : List (List α) :=
  match l with
  | [] => []
  | x :: xs =>
    if _hn : n = 0 then []
    else (x :: xs).take n :: chunksList n ((x :: xs).drop n)
termination_by l.length
decreasing_by
  simp only [List.length_drop, List.length_cons]
  omega

/-- The mono downmix performed by the live capture callback
(`main.rs` lines 366‑373): for each delivered chunk of `channels` interleaved
values, push the sum of the chunk divided by the full channel count. -/
def downmixInterleaved (channels : ℕ) (data : List ℚ) : List ℚ :=
  (chunksList channels data).map (fun c => c.sum / (channels : ℚ))

/-- The mono downmix performed by the file decoder (`main.rs` lines 165‑171):
for each frame index, sum the planes' samples at that index and divide by the
channel count.  (Out-of-range indexing panics in the source; call sites
guarantee `channels` planes of at least `frames` samples each, so the `getD`
defaults are never taken there.) -/
def downmixPlanar (channels frames : ℕ) (planes : List (List ℚ)) : List ℚ :=
  (List.range frames).map (fun i =>
    ((List.range channels).map (fun ch => (planes.getD ch []).getD i 0)).sum / (channels : ℕ))

/-- The state owned by the live session that the capture callback and the
transcription thread share: the growing mono sample buffer (at the capture
sample rate), the cursor `last_processed`, the chunk index
`segment_counter`, and the transcript lines emitted so far. -/
structure TickState where
  buffer : List ℚ
  last_processed : ℕ
  segment_counter : ℕ
  output : List String
deriving DecidableEq

/-- The initial state of a live session: empty buffer, cursor and chunk
index at zero, no output. -/
def initState : TickState := ⟨[], 0, 0, []⟩

/-- One append by the capture callback (`main.rs` lines 362‑376, with the
recording flag set): the delivered interleaved block is downmixed to mono
and pushed onto the shared buffer. -/
def captureAppend (channels : ℕ) (data : List ℚ) (s : TickState) : TickState :=
  { s with buffer := s.buffer ++ downmixInterleaved channels data }

/-- One wake of the transcription thread's loop with the recording flag still
set (`main.rs` lines 401‑501).  The engine oracle models
`create_state`/`full`/`full_n_segments` collectively (`none` is a chunk-level
failure — each reaches `continue`), and each returned element models one
segment whose text/t0/t1 retrieval either all succeed (`some`) or fail
(`none`, skipping just that segment).  On success the output gains one line
per retrieved segment, the chunk index increments and the cursor advances by
`samples_16k.len()` — the length of the (possibly resampled) sequence. -/
def schedulerTick (sample_rate chunk_seconds : ℕ)
    (engine : List ℚ → Option (List (Option Segment))) (s : TickState) : TickState :=
  let chunk_size_samples : ℕ := chunk_seconds * 16000
  if s.buffer.length - s.last_processed < chunk_size_samples then s
  else
    let samples_to_process := s.buffer.drop s.last_processed
    if samples_to_process.isEmpty then s
    else
      let samples_16k :=
        if sample_rate ≠ 16000 then resample samples_to_process sample_rate 16000
        else samples_to_process
      match engine samples_16k with
      | none => s
      | some segs =>
          { s with
            output := s.output ++
              (segs.filterMap id).map (mergeLine s.segment_counter chunk_seconds)
            segment_counter := s.segment_counter + 1
            last_processed := s.last_processed + samples_16k.length }

/-- The states of a live session reachable by any interleaving of capture
callback appends (any channel count, any block) and scheduler ticks (any
engine behaviour), starting from the initial state. -/
inductive Reach (sample_rate chunk_seconds : ℕ) : TickState → Prop
  | init : Reach sample_rate chunk_seconds initState
  | append (s : TickState) (channels : ℕ) (data : List ℚ) :
      Reach sample_rate chunk_seconds s →
      Reach sample_rate chunk_seconds (captureAppend channels data s)
  | tick (s : TickState) (engine : List ℚ → Option (List (Option Segment))) :
      Reach sample_rate chunk_seconds s →
      Reach sample_rate chunk_seconds (schedulerTick sample_rate chunk_seconds engine s)

/-- The sample selection of the final drain step (`main.rs` lines 515‑518):
`remaining_samples` is `buffer.clone()` — the entire buffer, not the tail
from `last_processed`. -/
def remainingSamples (buffer : List ℚ) : List ℚ := buffer

/-- A concrete end-of-session state: capture rate 16000 Hz,
`chunk_seconds = 1`, the callback has delivered 16000 mono samples and one
scheduler tick succeeded (engine returned zero segments). -/
def drainExampleState : TickState :=
  schedulerTick 16000 1 (fun _ => some [])
    (captureAppend 1 (List.replicate 16000 (0 : ℚ)) initState)

/-! ## Scheduler tick lemmas -/

/-- A tick whose engine fails (state creation, `full`, or segment-count
retrieval) hits `continue` before the bookkeeping at the end of the loop
body: the state is completely unchanged. -/
lemma schedulerTick_engine_none (sample_rate chunk_seconds : ℕ) (s : TickState) :
    schedulerTick sample_rate chunk_seconds (fun _ => none) s = s := by
  unfold schedulerTick
  dsimp only
  split
  · rfl
  · split <;> rfl

/-- A tick that finds less unprocessed audio than `chunk_size_samples`
takes the `continue` branch and changes nothing. -/
lemma schedulerTick_short_span (sample_rate chunk_seconds : ℕ)
    (engine : List ℚ → Option (List (Option Segment))) (s : TickState)
    (h : s.buffer.length - s.last_processed < chunk_seconds * 16000) :
    schedulerTick sample_rate chunk_seconds engine s = s := by
  unfold schedulerTick
  rw [if_pos h]

/-! ## Chunking and downmix lemmas -/

lemma chunksList_nil {α : Type} (n : ℕ) : chunksList n ([] : List α) = [] := by
  unfold chunksList
  rfl

lemma chunksList_cons_of_ne {α : Type} (n : ℕ) (hn : n ≠ 0) (l : List α) (hl : l ≠ []) :
    chunksList n l = l.take n :: chunksList n (l.drop n) := by
  match l with
  | [] => exact absurd rfl hl
  | x :: xs =>
    conv_lhs => rw [chunksList]
    rw [dif_neg hn]

lemma chunksList_length {α : Type} (n : ℕ) (hn : 0 < n) (l : List α) :
    (chunksList n l).length = (l.length + n - 1) / n := by
  have H : ∀ m : ℕ, ∀ l : List α, l.length ≤ m →
      (chunksList n l).length = (l.length + n - 1) / n := by
    intro m
    induction m with
    | zero =>
      intro l hl
      have : l = [] := List.eq_nil_of_length_eq_zero (Nat.le_zero.mp hl)
      subst this
      simp [chunksList_nil, Nat.div_eq_of_lt (by omega : n - 1 < n)]
    | succ m ih =>
      intro l hl
      match l with
      | [] => simp [chunksList_nil, Nat.div_eq_of_lt (by omega : n - 1 < n)]
      | x :: xs =>
        rw [chunksList_cons_of_ne n hn.ne' _ (by simp)]
        have hdl : ((x :: xs).drop n).length = xs.length + 1 - n := by simp
        simp only [List.length_cons]
        rw [ih _ (by simp at hl ⊢; omega), hdl]
        rcases le_or_lt n (xs.length + 1) with hle | hlt
        · have h1 : xs.length + 1 - n + n - 1 = xs.length + 1 - 1 := by omega
          have h2 : xs.length + 1 + n - 1 = (xs.length + 1 - 1) + n := by omega
          rw [h1, h2, Nat.add_div_right _ hn]
        · have h1 : xs.length + 1 - n = 0 := by omega
          rw [h1]
          rw [Nat.div_eq_of_lt (by omega : 0 + n - 1 < n)]
          rw [Nat.div_eq_of_lt_le (by omega : 1 * n ≤ xs.length + 1 + n - 1)
            (by omega : xs.length + 1 + n - 1 < (1 + 1) * n)]
  exact H l.length l le_rfl

lemma chunksList_getElem? {α : Type} (n : ℕ) (hn : 0 < n) :
    ∀ (i : ℕ) (l : List α), i < (chunksList n l).length →
      (chunksList n l)[i]? = some ((l.drop (n * i)).take n) := by
  intro i
  induction i with
  | zero =>
    intro l hi
    match l with
    | [] => rw [chunksList_nil] at hi; simp at hi
    | x :: xs =>
      rw [chunksList_cons_of_ne n hn.ne' _ (by simp)]
      simp
  | succ i ih =>
    intro l hi
    match l with
    | [] => rw [chunksList_nil] at hi; simp at hi
    | x :: xs =>
      rw [chunksList_cons_of_ne n hn.ne' _ (by simp)] at hi ⊢
      simp only [List.getElem?_cons_succ]
      rw [ih _ (by simpa using hi), List.drop_drop, Nat.mul_succ, Nat.add_comm n (n * i)]

lemma chunksList_join {α : Type} (n : ℕ) (hn : 0 < n) :
    ∀ frames : List (List α), (∀ f ∈ frames, f.length = n) →
      chunksList n frames.flatten = frames := by
  intro frames
  induction frames with
  | nil => intro _; simp [chunksList_nil]
  | cons f rest ih =>
    intro hlen
    have hf : f.length = n := hlen f (List.mem_cons_self _ _)
    have hfne : f ++ rest.flatten ≠ [] := by
      intro h
      have := congrArg List.length h
      simp [hf] at this
      omega
    rw [List.flatten_cons, chunksList_cons_of_ne n hn.ne' _ hfne,
      List.take_left' hf, List.drop_left' hf,
      ih (fun g hg => hlen g (List.mem_cons_of_mem _ hg))]

lemma flatten_map_singleton {α : Type} (l : List α) :
    (l.map (fun x => [x])).flatten = l := by
  induction l with
  | nil => rfl
  | cons x xs ih => simp [ih]

lemma replicate_sum_div (n : ℕ) (hn : 0 < n) (x : ℚ) :
    (List.replicate n x).sum / (n : ℚ) = x := by
  rw [List.sum_replicate, nsmul_eq_mul]
  exact mul_div_cancel_left₀ x (by exact_mod_cast hn.ne')

lemma getD_replicate {α : Type} (n i : ℕ) (a d : α) (hi : i < n) :
    (List.replicate n a).getD i d = a := by
  rw [List.getD_eq_getElem _ _ (by simpa using hi)]
  simp

lemma map_getD_range (l : List ℚ) :
    (List.range l.length).map (fun i => l.getD i 0) = l := by
  apply List.ext_getElem
  · simp
  · intro i h1 h2
    simp only [List.getElem_map, List.getElem_range]
    exact List.getD_eq_getElem l 0 h2

/-- C8, interleaved case: on whole frames the callback downmix emits one
mean per frame. -/
lemma downmixInterleaved_frames (channels : ℕ) (hch : 0 < channels)
    (frames : List (List ℚ)) (hlen : ∀ f ∈ frames, f.length = channels) :
    downmixInterleaved channels frames.flatten =
      frames.map (fun f => f.sum / (channels : ℚ)) := by
  unfold downmixInterleaved
  rw [chunksList_join channels hch frames hlen]

/-- C8, single-channel case: the callback downmix with `channels = 1`
returns its input unchanged. -/
lemma downmixInterleaved_one (data : List ℚ) : downmixInterleaved 1 data = data := by
  have h1 : downmixInterleaved 1 (data.map (fun x => [x])).flatten =
      (data.map (fun x => [x])).map (fun f => f.sum / (1 : ℚ)) :=
    downmixInterleaved_frames 1 one_pos _ (by simp)
  rw [flatten_map_singleton] at h1
  rw [h1, List.map_map]
  refine (List.map_congr_left ?_).trans (List.map_id data)
  intro x _
  simp [Function.comp]

/--
C8: the mono downmixer emits one sample per frame equal to the arithmetic
mean of that frame's channel values:
* on any list of whole frames of `channels` interleaved values, the capture
  callback's downmix maps each frame to its sum divided by `channels`
  (for a frame of length `channels`, `sum / channels` is the arithmetic mean);
* with `channels = 1` the input comes back unchanged;
* a frame of `channels` identical values downmixes to that value;
* the file decoder's planar downmix on a single channel returns the plane
  unchanged, and on `channels` identical planes returns the common plane.
-/
theorem c8_mono_downmixer :
    (∀ (channels : ℕ) (frames : List (List ℚ)), 0 < channels →
        (∀ f ∈ frames, f.length = channels) →
        downmixInterleaved channels frames.flatten =
          frames.map (fun f => f.sum / (channels : ℚ))) ∧
    (∀ data : List ℚ, downmixInterleaved 1 data = data) ∧
    (∀ (channels : ℕ) (x : ℚ), 0 < channels →
        downmixInterleaved channels (List.replicate channels x) = [x]) ∧
    (∀ p : List ℚ, downmixPlanar 1 p.length [p] = p) ∧
    (∀ (channels : ℕ) (p : List ℚ), 0 < channels →
        downmixPlanar channels p.length (List.replicate channels p) = p) := by
  refine ⟨fun channels frames hch hlen => downmixInterleaved_frames channels hch frames hlen,
    downmixInterleaved_one, ?_, ?_, ?_⟩
  · intro channels x hch
    have h1 : downmixInterleaved channels ([List.replicate channels x]).flatten =
        ([List.replicate channels x]).map (fun f => f.sum / (channels : ℚ)) :=
      downmixInterleaved_frames channels hch _ (by simp)
    simp only [List.flatten_cons, List.flatten_nil, List.append_nil, List.map_cons,
      List.map_nil] at h1
    rw [h1, replicate_sum_div channels hch x]
  · intro p
    unfold downmixPlanar
    have h1 : ∀ i ∈ List.range p.length,
        ((List.range 1).map (fun ch => (([p] : List (List ℚ)).getD ch []).getD i 0)).sum /
          ((1 : ℕ) : ℚ) = p.getD i 0 := by
      intro i _
      simp [List.range_succ]
    rw [List.map_congr_left h1, map_getD_range]
  · intro channels p hch
    unfold downmixPlanar
    have h1 : ∀ i ∈ List.range p.length,
        ((List.range channels).map
            (fun ch => ((List.replicate channels p).getD ch []).getD i 0)).sum /
          ((channels : ℕ) : ℚ) = p.getD i 0 := by
      intro i _
      have h2 : ∀ ch ∈ List.range channels,
          ((List.replicate channels p).getD ch []).getD i 0 = p.getD i 0 := by
        intro ch hchm
        rw [getD_replicate channels ch p [] (List.mem_range.mp hchm)]
      rw [List.map_congr_left h2, List.map_const', List.length_range]
      exact replicate_sum_div channels hch _
    rw [List.map_congr_left h1, map_getD_range]

/-- Witness for C8 at `channels = 2`, frames `[[1, 3], [2, 2]]`. -/
theorem c8_mono_downmixer_witness :
    ((0 : ℕ) < 2 ∧ ∀ f ∈ [[(1 : ℚ), 3], [2, 2]], f.length = 2) ∧
    downmixInterleaved 2 ([[(1 : ℚ), 3], [2, 2]].flatten) =
      [[(1 : ℚ), 3], [2, 2]].map (fun f => f.sum / (2 : ℚ)) :=
  ⟨⟨by decide, by decide⟩, c8_mono_downmixer.1 2 _ (by decide) (by decide)⟩

/--
C10 (implicit): when a capture block's length is not a multiple of the
channel count, the callback still emits a mono sample for the trailing
partial frame: the output has `ceil(len / channels)` samples, the trailing
frame holds the `len % channels` remaining values, and its mono sample is
the sum of those values divided by the full channel count.
-/
theorem c10_partial_frame (channels : ℕ) (data : List ℚ) (hch : 0 < channels)
    (hpart : data.length % channels ≠ 0) :
    (downmixInterleaved channels data).length = (data.length + channels - 1) / channels ∧
    (data.drop (channels * (data.length / channels))).length = data.length % channels ∧
    (downmixInterleaved channels data)[data.length / channels]? =
      some ((data.drop (channels * (data.length / channels))).sum / (channels : ℚ)) := by
  have hdm := Nat.div_add_mod data.length channels
  have hmlt : data.length % channels < channels := Nat.mod_lt _ hch
  have hclen := chunksList_length channels hch data
  have hlen : (downmixInterleaved channels data).length =
      (data.length + channels - 1) / channels := by
    unfold downmixInterleaved
    rw [List.length_map, hclen]
  refine ⟨hlen, by simp only [List.length_drop]; omega, ?_⟩
  have hidx : data.length / channels < (chunksList channels data).length := by
    have h1 : data.length / channels + 1 ≤ (data.length + channels - 1) / channels := by
      rw [Nat.le_div_iff_mul_le hch]
      have he : (data.length / channels + 1) * channels =
          channels * (data.length / channels) + channels := by ring
      rw [he]
      omega
    rw [hclen]
    omega
  unfold downmixInterleaved
  rw [List.getElem?_map, chunksList_getElem? channels hch _ data hidx]
  have htk : (data.drop (channels * (data.length / channels))).take channels =
      data.drop (channels * (data.length / channels)) := by
    apply List.take_of_length_le
    simp only [List.length_drop]
    omega
  rw [htk]
  rfl

/-- Witness for C10 at `channels = 2`, `data = [1, 2, 3]`. -/
theorem c10_partial_frame_witness :
    ((0 : ℕ) < 2 ∧ ([(1 : ℚ), 2, 3].length % 2 ≠ 0)) ∧
    (downmixInterleaved 2 [(1 : ℚ), 2, 3]).length = ([(1 : ℚ), 2, 3].length + 2 - 1) / 2 ∧
    ([(1 : ℚ), 2, 3].drop (2 * ([(1 : ℚ), 2, 3].length / 2))).length = [(1 : ℚ), 2, 3].length % 2 ∧
    (downmixInterleaved 2 [(1 : ℚ), 2, 3])[[(1 : ℚ), 2, 3].length / 2]? =
      some (([(1 : ℚ), 2, 3].drop (2 * ([(1 : ℚ), 2, 3].length / 2))).sum / (2 : ℚ)) :=
  ⟨⟨by decide, by decide⟩, c10_partial_frame 2 [(1 : ℚ), 2, 3] (by decide) (by decide)⟩

/-! ## Resampler lemmas -/

lemma filterMap_eq_map_of {α β : Type} (l : List α) (f : α → Option β) (g : α → β)
    (h : ∀ a ∈ l, f a = some (g a)) : l.filterMap f = l.map g := by
  have h1 : l.filterMap f = l.filterMap (some ∘ g) := List.filterMap_congr h
  rw [h1, List.filterMap_eq_map]

/-- Identity law: resampling at an equal rate returns the input. -/
lemma resample_self (s : List ℚ) (r : ℕ) : resample s r r = s := by
  unfold resample
  rw [if_pos rfl]

/-- An empty sequence resamples to an empty sequence, at any rates. -/
lemma resample_nil (from_rate to_rate : ℕ) : resample [] from_rate to_rate = [] := by
  unfold resample
  split
  · rfl
  · simp

/-- With distinct positive rates, every output index of `resample` is
produced (no index is skipped), and equals the reference interpolation:
`resample` is the map of `specResampleAt` over
`range (floor (len * to_rate / from_rate))`. -/
lemma resample_eq_map (s : List ℚ) (from_rate to_rate : ℕ) (hne : from_rate ≠ to_rate)
    (hfr : 0 < from_rate) (hto : 0 < to_rate) :
    resample s from_rate to_rate =
      (List.range ((⌊(s.length : ℚ) * ((to_rate : ℚ) / (from_rate : ℚ))⌋).toNat)).map
        (specResampleAt s from_rate to_rate) := by
  unfold resample
  rw [if_neg hne]
  dsimp only
  apply filterMap_eq_map_of
  intro i hi
  have hrqpos : (0 : ℚ) < (to_rate : ℚ) / (from_rate : ℚ) :=
    div_pos (by exact_mod_cast hto) (by exact_mod_cast hfr)
  have hi' : i < (⌊(s.length : ℚ) * ((to_rate : ℚ) / (from_rate : ℚ))⌋).toNat :=
    List.mem_range.mp hi
  have hiQ : (i : ℚ) < (s.length : ℚ) * ((to_rate : ℚ) / (from_rate : ℚ)) := by
    have h1 : (i : ℤ) < ⌊(s.length : ℚ) * ((to_rate : ℚ) / (from_rate : ℚ))⌋ :=
      Int.lt_toNat.mp hi'
    calc (i : ℚ) = ((i : ℤ) : ℚ) := by push_cast; rfl
      _ < ((⌊(s.length : ℚ) * ((to_rate : ℚ) / (from_rate : ℚ))⌋ : ℤ) : ℚ) := by
          exact_mod_cast h1
      _ ≤ (s.length : ℚ) * ((to_rate : ℚ) / (from_rate : ℚ)) := Int.floor_le _
  have hsp : (i : ℚ) / ((to_rate : ℚ) / (from_rate : ℚ)) < (s.length : ℚ) :=
    (div_lt_iff₀ hrqpos).mpr hiQ
  have hsp0 : (0 : ℚ) ≤ (i : ℚ) / ((to_rate : ℚ) / (from_rate : ℚ)) :=
    div_nonneg (by positivity) hrqpos.le
  have hfl0 : 0 ≤ ⌊(i : ℚ) / ((to_rate : ℚ) / (from_rate : ℚ))⌋ := Int.floor_nonneg.mpr hsp0
  have hidxle : (((⌊(i : ℚ) / ((to_rate : ℚ) / (from_rate : ℚ))⌋).toNat : ℕ) : ℚ) ≤
      (i : ℚ) / ((to_rate : ℚ) / (from_rate : ℚ)) := by
    have h2 : (((⌊(i : ℚ) / ((to_rate : ℚ) / (from_rate : ℚ))⌋).toNat : ℕ) : ℤ) =
        ⌊(i : ℚ) / ((to_rate : ℚ) / (from_rate : ℚ))⌋ := Int.toNat_of_nonneg hfl0
    calc (((⌊(i : ℚ) / ((to_rate : ℚ) / (from_rate : ℚ))⌋).toNat : ℕ) : ℚ)
        = ((⌊(i : ℚ) / ((to_rate : ℚ) / (from_rate : ℚ))⌋ : ℤ) : ℚ) := by exact_mod_cast h2
      _ ≤ _ := Int.floor_le _
  have hidxlt : (⌊(i : ℚ) / ((to_rate : ℚ) / (from_rate : ℚ))⌋).toNat < s.length := by
    have h3 : (((⌊(i : ℚ) / ((to_rate : ℚ) / (from_rate : ℚ))⌋).toNat : ℕ) : ℚ) <
        (s.length : ℚ) := lt_of_le_of_lt hidxle hsp
    exact_mod_cast h3
  dsimp only [specResampleAt]
  by_cases hca : (⌊(i : ℚ) / ((to_rate : ℚ) / (from_rate : ℚ))⌋).toNat + 1 < s.length
  · rw [if_pos hca, if_pos hca]
  · rw [if_neg hca, if_neg hca, if_pos hidxlt]

/-- With distinct positive rates the output length is exactly
`floor(len(s) * to_rate / from_rate)`. -/
lemma resample_length (s : List ℚ) (from_rate to_rate : ℕ) (hne : from_rate ≠ to_rate)
    (hfr : 0 < from_rate) (hto : 0 < to_rate) :
    (resample s from_rate to_rate).length =
      (⌊(s.length : ℚ) * ((to_rate : ℚ) / (from_rate : ℚ))⌋).toNat := by
  rw [resample_eq_map s from_rate to_rate hne hfr hto]
  simp

/--
C7: `resample` equals the reference linear-interpolation definition:
* identity at equal rates, for every rate and sequence;
* the empty sequence yields the empty result at any rates;
* for distinct positive rates the output has length
  `floor(len(s) * to_rate / from_rate)` and each output index `i` holds the
  reference interpolation value `specResampleAt s from_rate to_rate i`
  (linear interpolation between `s[floor(i/ratio)]` and its successor when in
  bounds, the last in-bounds sample at the tail).
-/
theorem c7_resample_reference :
    (∀ (s : List ℚ) (r : ℕ), resample s r r = s) ∧
    (∀ (from_rate to_rate : ℕ), resample [] from_rate to_rate = []) ∧
    (∀ (s : List ℚ) (from_rate to_rate : ℕ), from_rate ≠ to_rate →
        0 < from_rate → 0 < to_rate →
        (resample s from_rate to_rate).length =
          (⌊(s.length : ℚ) * ((to_rate : ℚ) / (from_rate : ℚ))⌋).toNat ∧
        ∀ i : ℕ, i < (resample s from_rate to_rate).length →
          (resample s from_rate to_rate)[i]? =
            some (specResampleAt s from_rate to_rate i)) := by
  refine ⟨resample_self, resample_nil, ?_⟩
  intro s from_rate to_rate hne hfr hto
  have hl := resample_length s from_rate to_rate hne hfr hto
  refine ⟨hl, ?_⟩
  intro i hi
  rw [hl] at hi
  rw [resample_eq_map s from_rate to_rate hne hfr hto, List.getElem?_map,
    List.getElem?_range hi]
  rfl

/-- Witness for C7 at `s = [1, 2]`, `from_rate = 1`, `to_rate = 2`. -/
theorem c7_resample_reference_witness :
    ((1 : ℕ) ≠ 2 ∧ (0 : ℕ) < 1 ∧ (0 : ℕ) < 2) ∧
    (resample [(1 : ℚ), 2] 1 2).length =
      (⌊(([(1 : ℚ), 2].length : ℕ) : ℚ) * (((2 : ℕ) : ℚ) / ((1 : ℕ) : ℚ))⌋).toNat :=
  ⟨⟨by decide, by decide, by decide⟩,
    (c7_resample_reference.2.2 [(1 : ℚ), 2] 1 2 (by decide) (by decide) (by decide)).1⟩

/--
C9: on a scheduler tick where the unprocessed span (from `last_processed`
to the buffer end) is shorter than `chunk_size_samples = chunk_seconds *
16000`, nothing changes: the state (buffer, cursor, chunk index, output) is
returned untouched, for any engine and capture rate.
-/
theorem c9_short_span_noop (sample_rate chunk_seconds : ℕ)
    (engine : List ℚ → Option (List (Option Segment))) (s : TickState)
    (_h1 : s.last_processed ≤ s.buffer.length)
    (h2 : s.buffer.length - s.last_processed < chunk_seconds * 16000) :
    schedulerTick sample_rate chunk_seconds engine s = s :=
  schedulerTick_short_span sample_rate chunk_seconds engine s h2

/-- Witness for C9: one buffered sample, `chunk_seconds = 5`, rate 48000. -/
theorem c9_short_span_noop_witness :
    ((TickState.mk [(1 : ℚ)] 0 0 []).last_processed ≤
        (TickState.mk [(1 : ℚ)] 0 0 []).buffer.length ∧
      (TickState.mk [(1 : ℚ)] 0 0 []).buffer.length -
        (TickState.mk [(1 : ℚ)] 0 0 []).last_processed < 5 * 16000) ∧
    schedulerTick 48000 5 (fun _ => some []) (TickState.mk [(1 : ℚ)] 0 0 []) =
      TickState.mk [(1 : ℚ)] 0 0 [] :=
  ⟨⟨by decide, by decide⟩,
    c9_short_span_noop 48000 5 (fun _ => some []) (TickState.mk [(1 : ℚ)] 0 0 [])
      (by decide) (by decide)⟩

/--
C4 counterexample: with capture rate 16000 Hz, `chunk_seconds = 1` and a
full chunk (16000 samples) available, a tick whose engine fails leaves the
state completely unchanged — the cursor does NOT advance and the chunk index
does NOT increment, contradicting the claim that the failed chunk is
consumed with the same bookkeeping as on success.
-/
theorem c4_engine_failure_counterexample :
    1 * 16000 ≤ (TickState.mk (List.replicate 16000 (0 : ℚ)) 0 0 []).buffer.length -
        (TickState.mk (List.replicate 16000 (0 : ℚ)) 0 0 []).last_processed ∧
    schedulerTick 16000 1 (fun _ => none)
        (TickState.mk (List.replicate 16000 (0 : ℚ)) 0 0 []) =
      TickState.mk (List.replicate 16000 (0 : ℚ)) 0 0 [] := by
  constructor
  · dsimp only
    rw [List.length_replicate]
  · exact schedulerTick_engine_none 16000 1 _

/--
C4 amended: when the engine fails on a chunk (state-creation error or
transcription error), the scheduler performs NO bookkeeping — the `continue`
skips the cursor advance and the index increment, so the state is unchanged
and the chunk's samples stay unconsumed (they are retried, as part of the
then-larger span, on a later tick).  The failure does not prevent later
chunks from being processed: a following tick behaves exactly as if the
failing tick had never happened.
-/
theorem c4_engine_failure_no_bookkeeping :
    (∀ (sample_rate chunk_seconds : ℕ) (s : TickState),
        schedulerTick sample_rate chunk_seconds (fun _ => none) s = s) ∧
    (∀ (sample_rate chunk_seconds : ℕ)
        (engine : List ℚ → Option (List (Option Segment))) (s : TickState),
        schedulerTick sample_rate chunk_seconds engine
            (schedulerTick sample_rate chunk_seconds (fun _ => none) s) =
          schedulerTick sample_rate chunk_seconds engine s) := by
  refine ⟨schedulerTick_engine_none, ?_⟩
  intro sample_rate chunk_seconds engine s
  rw [schedulerTick_engine_none]

/-! ## Timestamp merger lemmas -/

lemma wrapI64_of_range (z : ℤ) (h0 : 0 ≤ z) (h1 : z < 2 ^ 63) : wrapI64 z = z := by
  unfold wrapI64
  rw [Int.emod_eq_of_lt (by omega) (by omega)]
  omega

lemma u64ToI64_of_small (n : ℕ) (h : n < 2 ^ 63) : u64ToI64 n = (n : ℤ) := by
  unfold u64ToI64
  rw [Nat.mod_eq_of_lt (lt_trans h (by norm_num))]
  rw [if_pos h]

/--
C6: for every chunk index `k`, chunk-relative `start_time`/`end_time` in
centiseconds and `chunk_seconds`, as long as the global second counts fit in
`i64` (no wrap) and the engine timestamps are non-negative, the scheduler's
transcript line is exactly the spec's Timestamp Merger output:
`global_start = k*chunk_seconds + start_time/100`,
`global_end = k*chunk_seconds + end_time/100`, formatted `MM:SS`;
in particular, for `k = 2`, `chunk_seconds = 5` and segment `{100, 300}` the
emitted line carries `[00:11 - 00:13]`.
-/
theorem c6_timestamp_merger :
    (∀ (k chunk_seconds : ℕ) (seg : Segment),
        (k : ℤ) * (chunk_seconds : ℤ) + Int.tdiv seg.t0 100 < 2 ^ 63 →
        (k : ℤ) * (chunk_seconds : ℤ) + Int.tdiv seg.t1 100 < 2 ^ 63 →
        0 ≤ seg.t0 → 0 ≤ seg.t1 →
        mergeLine k chunk_seconds seg =
          "[" ++ specMMSS (specGlobalTime k chunk_seconds seg.t0) ++ " - " ++
            specMMSS (specGlobalTime k chunk_seconds seg.t1) ++ "] " ++
            strTrim seg.text ++ "\n") ∧
    mergeLine 2 5 ⟨100, 300, "hello"⟩ = "[00:11 - 00:13] hello\n" := by
  constructor
  · intro k chunk_seconds seg h0 h1 ht0 ht1
    have htd0 : 0 ≤ Int.tdiv seg.t0 100 := Int.tdiv_nonneg ht0 (by norm_num)
    have htd1 : 0 ≤ Int.tdiv seg.t1 100 := Int.tdiv_nonneg ht1 (by norm_num)
    have hmn : (0 : ℤ) ≤ (k : ℤ) * (chunk_seconds : ℤ) :=
      mul_nonneg (by positivity) (by positivity)
    have hkcs : (k : ℤ) * (chunk_seconds : ℤ) < 2 ^ 63 := by omega
    have hkcsN : k * chunk_seconds < 2 ^ 63 := by
      have h2 : ((k * chunk_seconds : ℕ) : ℤ) = (k : ℤ) * (chunk_seconds : ℤ) := by
        push_cast
        ring
      omega
    have hu : u64ToI64 (k * chunk_seconds) = (k : ℤ) * (chunk_seconds : ℤ) := by
      rw [u64ToI64_of_small _ hkcsN]
      push_cast
      ring
    unfold mergeLine specMMSS specGlobalTime
    dsimp only
    rw [hu, wrapI64_of_range _ (by omega) (by omega),
      wrapI64_of_range _ (by omega) (by omega)]
    simp only [String.append_assoc]
  · decide

/-- Witness for C6 at `k = 2`, `chunk_seconds = 5`, segment `{100, 300}`. -/
theorem c6_timestamp_merger_witness :
    ((2 : ℤ) * (5 : ℤ) + Int.tdiv 100 100 < 2 ^ 63 ∧
      (2 : ℤ) * (5 : ℤ) + Int.tdiv 300 100 < 2 ^ 63 ∧
      (0 : ℤ) ≤ 100 ∧ (0 : ℤ) ≤ 300) ∧
    mergeLine 2 5 ⟨100, 300, "hello"⟩ = "[00:11 - 00:13] hello\n" :=
  ⟨⟨by decide, by decide, by decide, by decide⟩,
    ((c6_timestamp_merger.1 2 5 ⟨100, 300, "hello"⟩ (by decide) (by decide)
        (by decide) (by decide)).trans (by decide))⟩

/-! ## Evaluating successful ticks on concrete sessions -/

/-- A tick with a full chunk available and a succeeding engine performs the
loop body's bookkeeping: output lines for the retrieved segments, chunk
index incremented, cursor advanced by `samples_16k.len()`. -/
lemma schedulerTick_success (sample_rate chunk_seconds : ℕ)
    (segs : List (Option Segment)) (s : TickState)
    (hspan : ¬(s.buffer.length - s.last_processed < chunk_seconds * 16000))
    (hne : (s.buffer.drop s.last_processed).isEmpty = false) :
    schedulerTick sample_rate chunk_seconds (fun _ => some segs) s =
      { s with
        output := s.output ++
          (segs.filterMap id).map (mergeLine s.segment_counter chunk_seconds)
        segment_counter := s.segment_counter + 1
        last_processed := s.last_processed +
          (if sample_rate ≠ 16000 then
              resample (s.buffer.drop s.last_processed) sample_rate 16000
            else s.buffer.drop s.last_processed).length } := by
  unfold schedulerTick
  dsimp only
  rw [if_neg hspan, hne]
  simp only [Bool.false_eq_true, if_false]

lemma captureAppend_one (data : List ℚ) (s : TickState) :
    captureAppend 1 data s = { s with buffer := s.buffer ++ data } := by
  unfold captureAppend
  rw [downmixInterleaved_one]

lemma replicate16000_ne_nil : (List.replicate 16000 (0 : ℚ)).isEmpty = false := by
  simp

lemma replicate32000_ne_nil : (List.replicate 32000 (0 : ℚ)).isEmpty = false := by
  simp

lemma hspan16000 : ¬((TickState.mk (List.replicate 16000 (0 : ℚ)) 0 0 []).buffer.length -
    (TickState.mk (List.replicate 16000 (0 : ℚ)) 0 0 []).last_processed < 1 * 16000) := by
  rewrite [show (TickState.mk (List.replicate 16000 (0 : ℚ)) 0 0 []).buffer.length = 16000 by
    dsimp only; exact List.length_replicate 16000 0]
  decide

lemma hspan32000 : ¬((TickState.mk (List.replicate 32000 (0 : ℚ)) 0 0 []).buffer.length -
    (TickState.mk (List.replicate 32000 (0 : ℚ)) 0 0 []).last_processed < 1 * 16000) := by
  rewrite [show (TickState.mk (List.replicate 32000 (0 : ℚ)) 0 0 []).buffer.length = 32000 by
    dsimp only; exact List.length_replicate 32000 0]
  decide

lemma hne16000 : ((TickState.mk (List.replicate 16000 (0 : ℚ)) 0 0 []).buffer.drop
    (TickState.mk (List.replicate 16000 (0 : ℚ)) 0 0 []).last_processed).isEmpty = false := by
  dsimp only
  rewrite [List.drop_zero]
  exact replicate16000_ne_nil

/-- Evaluating `drainExampleState`: at 16000 Hz nothing is resampled, so the
successful tick advances the cursor to 16000 — the whole buffer is consumed
by the periodic chunk. -/
lemma drainExampleState_eq :
    drainExampleState = TickState.mk (List.replicate 16000 (0 : ℚ)) 16000 1 [] := by
  unfold drainExampleState
  rewrite [captureAppend_one]
  have h1 : ({ initState with buffer := initState.buffer ++ List.replicate 16000 (0 : ℚ) } :
      TickState) = TickState.mk (List.replicate 16000 (0 : ℚ)) 0 0 [] := rfl
  rewrite [h1]
  rewrite [schedulerTick_success 16000 1 [] _ hspan16000 hne16000]
  dsimp only
  rewrite [List.drop_zero, if_neg (by norm_num : ¬((16000 : ℕ) ≠ 16000)),
    List.length_replicate, Nat.zero_add]
  simp only [List.filterMap_nil, List.map_nil, List.append_nil]

/-- Evaluating one successful tick at 32000 Hz on a 32000-sample buffer:
the chunk is resampled to 16000 samples and the cursor advances by that
resampled length, not by the 32000 raw samples taken. -/
lemma tick32000_eq :
    schedulerTick 32000 1 (fun _ => some [])
        (TickState.mk (List.replicate 32000 (0 : ℚ)) 0 0 []) =
      TickState.mk (List.replicate 32000 (0 : ℚ)) 16000 1 [] := by
  rewrite [schedulerTick_success 32000 1 [] _ hspan32000
    (by dsimp only; rewrite [List.drop_zero]; exact replicate32000_ne_nil)]
  dsimp only
  rewrite [List.drop_zero]
  rewrite [if_pos (by norm_num : (32000 : ℕ) ≠ 16000)]
  rewrite [resample_length _ 32000 16000 (by norm_num) (by norm_num) (by norm_num)]
  rewrite [List.length_replicate]
  have h2 : ⌊((32000 : ℕ) : ℚ) * (((16000 : ℕ) : ℚ) / ((32000 : ℕ) : ℚ))⌋ = 16000 := by
    push_cast
    norm_num
  rewrite [h2, show (16000 : ℤ).toNat = (16000 : ℕ) from rfl, Nat.zero_add]
  simp only [List.filterMap_nil, List.map_nil, List.append_nil]

/-- Evaluating one successful tick at 8000 Hz on a 16000-sample buffer
(one full chunk with `chunk_seconds = 1`): upsampling to 16 kHz doubles the
length, and the cursor jumps to 32000 — past the end of the buffer. -/
lemma tick8000_eq :
    schedulerTick 8000 1 (fun _ => some [])
        (captureAppend 1 (List.replicate 16000 (0 : ℚ)) initState) =
      TickState.mk (List.replicate 16000 (0 : ℚ)) 32000 1 [] := by
  rewrite [captureAppend_one]
  have h1 : ({ initState with buffer := initState.buffer ++ List.replicate 16000 (0 : ℚ) } :
      TickState) = TickState.mk (List.replicate 16000 (0 : ℚ)) 0 0 [] := rfl
  rewrite [h1]
  rewrite [schedulerTick_success 8000 1 [] _ hspan16000
    (by dsimp only; rewrite [List.drop_zero]; exact replicate16000_ne_nil)]
  dsimp only
  rewrite [List.drop_zero]
  rewrite [if_pos (by norm_num : (8000 : ℕ) ≠ 16000)]
  rewrite [resample_length _ 8000 16000 (by norm_num) (by norm_num) (by norm_num)]
  rewrite [List.length_replicate]
  have h2 : ⌊((16000 : ℕ) : ℚ) * (((16000 : ℕ) : ℚ) / ((8000 : ℕ) : ℚ))⌋ = 32000 := by
    push_cast
    norm_num
  rewrite [h2, show (32000 : ℤ).toNat = (32000 : ℕ) from rfl, Nat.zero_add]
  simp only [List.filterMap_nil, List.map_nil, List.append_nil]

/--
C1: the drain step does NOT take only the samples from `last_processed`
onward — it clones the whole buffer.  In the concrete session
`drainExampleState` (capture rate 16000 Hz, `chunk_seconds = 1`, 16000
buffered samples all consumed by one successful periodic chunk), the
remaining unprocessed span is empty, yet the drain's `remaining_samples`
is the full 16000-sample buffer, so every sample already transcribed by the
periodic chunk is transcribed again by the drain.
-/
theorem c1_drain_takes_whole_buffer :
    remainingSamples drainExampleState.buffer = List.replicate 16000 (0 : ℚ) ∧
    drainExampleState.buffer.drop drainExampleState.last_processed = [] ∧
    remainingSamples drainExampleState.buffer ≠
      drainExampleState.buffer.drop drainExampleState.last_processed := by
  rw [drainExampleState_eq]
  refine ⟨rfl, ?_, ?_⟩
  · dsimp only
    rw [List.drop_replicate]
    simp
  · dsimp only
    rw [List.drop_replicate]
    simp only [Nat.sub_self, List.replicate_zero]
    unfold remainingSamples
    intro h
    have h2 := congrArg List.length h
    rw [List.length_replicate, List.length_nil] at h2
    exact absurd h2 (by norm_num)

/--
C2: after the successful dispatch of a chunk of 32000 raw samples captured
at 32000 Hz (`chunk_seconds = 1`), the code advances `last_processed` by
16000 — the length of the resampled sequence handed to the engine — instead
of by the raw, pre-resample chunk length 32000.
-/
theorem c2_cursor_advances_by_resampled_length :
    (schedulerTick 32000 1 (fun _ => some [])
        (TickState.mk (List.replicate 32000 (0 : ℚ)) 0 0 [])).last_processed = 16000 ∧
    ((TickState.mk (List.replicate 32000 (0 : ℚ)) 0 0 []).buffer.drop
        (TickState.mk (List.replicate 32000 (0 : ℚ)) 0 0 []).last_processed).length =
      32000 := by
  constructor
  · rw [tick32000_eq]
  · dsimp only
    rw [List.drop_zero, List.length_replicate]

/--
C3: the Streaming Buffer invariant `last_processed ≤ length(buffer)` does
NOT hold under every capture sample rate: at 8000 Hz, after the capture
callback appends 16000 mono samples and one scheduler tick succeeds, the
reachable state has `last_processed = 32000 > 16000 = length(buffer)`.
-/
theorem c3_invariant_violated_at_8000hz :
    Reach 8000 1 (schedulerTick 8000 1 (fun _ => some [])
        (captureAppend 1 (List.replicate 16000 (0 : ℚ)) initState)) ∧
    (schedulerTick 8000 1 (fun _ => some [])
        (captureAppend 1 (List.replicate 16000 (0 : ℚ)) initState)).buffer.length <
      (schedulerTick 8000 1 (fun _ => some [])
        (captureAppend 1 (List.replicate 16000 (0 : ℚ)) initState)).last_processed := by
  constructor
  · exact Reach.tick _ _ (Reach.append _ 1 _ Reach.init)
  · rw [tick8000_eq]
    dsimp only
    rw [List.length_replicate]
    norm_num

/--
C5: segments emitted by the final drain are NOT given global timestamps
computed with the final chunk index — the drain formats the engine-relative
timestamps alone.  For the drain segment `{100, 300}` the emitted line
carries `[00:01 - 00:03]`, while continuing the periodic numbering with
final index 2 and `chunk_seconds = 5` (as the claim requires) would carry
`[00:11 - 00:13]`.
-/
theorem c5_drain_ignores_chunk_index :
    drainLine ⟨100, 300, "hi"⟩ = "[00:01 - 00:03] hi\n" ∧
    mergeLine 2 5 ⟨100, 300, "hi"⟩ = "[00:11 - 00:13] hi\n" ∧
    drainLine ⟨100, 300, "hi"⟩ ≠ mergeLine 2 5 ⟨100, 300, "hi"⟩ :=
  ⟨by decide, by decide, by decide⟩

end AudioRecorder
